import Mathlib

/-!
Shallow embedding of `src/python/sglang/srt/managers/controller/infer_batch.py`
(the request/batch bookkeeping core of the sglang scheduler), together with the
external collaborators (token slot pool, radix cache eviction, tokenizer,
grammar automaton) that the embedded code calls.  Collaborators whose sources
are not part of the embedded code are modelled from the specification and are
marked as such in their doc comments.

Conventions of the embedding:
* Python lists become Lean `List`s; in-place mutation becomes explicit state
  passing.
* Python list slicing `l[a:b]` becomes `(l.take b).drop a`, and `l[a:]`
  becomes `l.drop a`.
* A Python path that raises (out-of-range indexing on an empty list, popping
  from an empty list) is modelled by an `Option` result, `none` standing for
  the raised exception.
* `exit()` (process termination) is modelled by a dedicated constructor of the
  result type, distinct from every value-returning outcome.
-/

namespace InferBatch

/-- Modelled from the spec: `TokenToKVPool` (`sglang/srt/memory_pool.py` is not
among the embedded sources).  A reference-counted allocator over a fixed number
of KV-cache slots: `refcnt[i]` is slot `i`'s reference count, and a slot is
free iff its count is 0 (spec section 4.1). -/
structure TokenToKVPool where
  refcnt : List Nat
deriving DecidableEq

/-- Modelled from the spec: the free slot ids of the pool, in increasing order. -/
def TokenToKVPool.freeSlots (p : TokenToKVPool) : List Nat :=
  (List.range p.refcnt.length).filter (fun i => p.refcnt.getD i 1 = 0)

/-- Modelled from the spec: `available_size()` is the number of free slots. -/
def TokenToKVPool.availableSize (p : TokenToKVPool) : Nat :=
  p.freeSlots.length

/-- Modelled from the spec: `alloc(n)` returns `n` distinct free slot ids (no
partial allocation) and the pool with those slots now referenced, or `none` on
failure. -/
def TokenToKVPool.alloc (p : TokenToKVPool) (n : Nat) :
    Option (List Nat × TokenToKVPool) :=
  if n ≤ p.availableSize then
    let chosen := p.freeSlots.take n
    some (chosen, ⟨chosen.foldl (fun l i => l.set i 1) p.refcnt⟩)
  else
    none

/-- Modelled from the spec: `dec_refs(slots)` decrements the reference count of
every listed slot occurrence; a slot reaching count 0 becomes free. -/
def TokenToKVPool.decRefs (p : TokenToKVPool) (idxs : List Nat) : TokenToKVPool :=
  ⟨idxs.foldl (fun l i => l.set i (l.getD i 0 - 1)) p.refcnt⟩

/-- The fields of `Req` read by the allocation arithmetic of
`Batch.prepare_for_extend` (infer_batch.py lines 360-409): the request's full
token sequence `input_ids` and the cached `prefix_indices`. -/
structure ExtendReq where
  inputIds : List Int
  prefixIndices : List Nat
deriving DecidableEq

/-- `extend_lens[i]`: the length of the unmatched suffix
`r.input_ids[len(r.prefix_indices):]` (line 364 and 377). -/
def ExtendReq.extendLen (r : ExtendReq) : Nat :=
  (r.inputIds.drop r.prefixIndices.length).length

/-- `prefix_lens[i] = len(r.prefix_indices)` (lines 379-382). -/
def ExtendReq.prefixLenOf (r : ExtendReq) : Nat :=
  r.prefixIndices.length

/-- `seq_lens[i] = prefix_lens[i] + extend_lens[i]` as built in the loop
(line 387). -/
def ExtendReq.seqLen (r : ExtendReq) : Nat :=
  r.prefixLenOf + r.extendLen

/-- `extend_num_tokens = seq_lens.sum() - prefix_lens.sum()` (line 393). -/
def extendNumTokens (reqs : List ExtendReq) : Nat :=
  (reqs.map ExtendReq.seqLen).sum - (reqs.map ExtendReq.prefixLenOf).sum

/-- Outcome of the allocation phase of an extend preparation: either the
allocated slot ids with the updated pool, or process termination via `exit()`.
The source has no error-returning path here. -/
inductive ExtendOutcome (α : Type) where
  | ok : α → ExtendOutcome α
  | processExit : ExtendOutcome α
deriving DecidableEq

/-- The memory-allocation logic of `Batch.prepare_for_extend` (lines 392-402):
allocate `extend_num_tokens` slots; on failure run one eviction pass
(`tree_cache.evict`, modelled as a parameter because `radix_cache.py` is not
among the embedded sources; spec section 4.2 allows partial or empty eviction)
and retry once; on a second failure print and `exit()`. -/
def prepareForExtendAlloc (evict : Nat → TokenToKVPool → TokenToKVPool)
    (reqs : List ExtendReq) (pool : TokenToKVPool) :
    ExtendOutcome (List Nat × TokenToKVPool) :=
  match pool.alloc (extendNumTokens reqs) with
  | some res => .ok res
  | none =>
    match (evict (extendNumTokens reqs) pool).alloc (extendNumTokens reqs) with
    | some res => .ok res
    | none => .processExit

/-- The fields of `Req` read by `Batch.prepare_for_extend_chunk_prefill`
(lines 682-727). -/
structure ChunkReq where
  inputIds : List Int
  prefixIndices : List Nat
  numCachedTokens : Nat
  numInflightTokens : Nat
deriving DecidableEq

/-- `r.get_context_len() = num_cached_tokens + num_inflight_tokens`
(lines 224-225), used as `seq_lens` in the chunk-prefill variant (line 693). -/
def ChunkReq.contextLen (r : ChunkReq) : Nat :=
  r.numCachedTokens + r.numInflightTokens

/-- `extend_num_tokens = seq_lens.sum() - prefix_lens.sum()` in the
chunk-prefill variant (line 715). -/
def chunkExtendNumTokens (reqs : List ChunkReq) : Nat :=
  (reqs.map ChunkReq.contextLen).sum
    - (reqs.map (fun r => r.prefixIndices.length)).sum

/-- The memory-allocation logic of `Batch.prepare_for_extend_chunk_prefill`
(lines 718-727): allocate; on failure, evict and retry once only when the tree
cache is not disabled; if still unallocated, print and `exit()`. -/
def prepareForExtendChunkAlloc (disable : Bool)
    (evict : Nat → TokenToKVPool → TokenToKVPool)
    (reqs : List ChunkReq) (pool : TokenToKVPool) :
    ExtendOutcome (List Nat × TokenToKVPool) :=
  match pool.alloc (chunkExtendNumTokens reqs) with
  | some res => .ok res
  | none =>
    if disable then .processExit
    else
      match (evict (chunkExtendNumTokens reqs) pool).alloc
          (chunkExtendNumTokens reqs) with
      | some res => .ok res
      | none => .processExit

/-- Finish reasons (infer_batch.py lines 31-71), named after the source
classes.  `FINISH_ABORT` carries the error flag implicitly. -/
inductive BaseFinishReason where
  | FINISH_MATCHED_TOKEN (matched : Int)
  | FINISH_LENGTH (length : Nat)
  | FINISH_MATCHED_STR (matched : String)
  | FINISH_ABORT
deriving DecidableEq

/-- The sampling-parameter fields read by `Req.check_finished` (the
`SamplingParams` class is not among the embedded sources; the fields follow the
spec's data model and the reads at lines 188-207). -/
structure SamplingParams where
  maxNewTokens : Nat
  ignoreEos : Bool
  stopStrs : List String
  stopStrMaxLen : Nat
deriving DecidableEq

/-- Whether `pat` starts the character list `hay`. -/
def listStartsWith : List Char → List Char → Bool
  | _, [] => true
  | [], _ :: _ => false
  | a :: as, b :: bs => a == b && listStartsWith as bs

/-- Python's substring test `pat in hay`, on character lists. -/
def listContainsSub : List Char → List Char → Bool
  | [], pat => pat.isEmpty
  | a :: as, pat => listStartsWith (a :: as) pat || listContainsSub as pat

/-- Python's substring test `pat in hay` on strings. -/
def strIn (pat hay : String) : Bool :=
  listContainsSub hay.toList pat.toList

/-- `Req.check_finished` (lines 184-209).  `decode` is the tokenizer
collaborator and `eosTokenId` the tokenizer's end-of-sequence id.  Python's
`self.output_ids[-1]` raises on an empty list; the model's `getLast?` test is
equivalent for the nonempty outputs `check_finished` is invoked on.  The tail
window `output_ids[-(stop_str_max_len + 1):]` is `drop (length - (max + 1))`. -/
def checkFinished (decode : List Int → String) (eosTokenId : Int)
    (sp : SamplingParams) (decodedText : String) (outputIds : List Int)
    (finishedReason : Option BaseFinishReason) : Option BaseFinishReason :=
  if finishedReason.isSome then finishedReason
  else if sp.maxNewTokens ≤ outputIds.length then
    some (.FINISH_LENGTH outputIds.length)
  else if outputIds.getLast? = some eosTokenId ∧ sp.ignoreEos = false then
    some (.FINISH_MATCHED_TOKEN eosTokenId)
  else if 0 < sp.stopStrs.length then
    match sp.stopStrs.find? (fun s =>
        strIn s (decode (outputIds.drop (outputIds.length - (sp.stopStrMaxLen + 1))))
          || strIn s decodedText) with
    | some s => some (.FINISH_MATCHED_STR s)
    | none => none
  else none

/-- The fields of `Req` (lines 74-134) that the embedded operations read or
write.  Entries of `decode_token_logprobs` / `decode_top_logprobs` are
modelled opaquely by `Int` — only their list structure matters to the embedded
code.  `last_node` is modelled by a radix-tree node id. -/
structure ReqState where
  originInputText : Option String
  originInputIdsUnpadded : List Int
  outputIds : List Int
  arrivalTime : Option Int
  decodedText : String
  surrOffset : Option Nat
  readOffset : Option Nat
  prefixIndices : List Nat
  lastNode : Option Nat
  returnLogprob : Bool
  decodeTokenLogprobs : List Int
  decodeTopLogprobs : List Int
  logprobStartLen : Nat
  lastUpdateDecodeTokens : Nat
  regexFsmState : Int
deriving DecidableEq

/-- `Req.__init__` (lines 75-134) restricted to the modelled fields.  Line 84
executes `self.arrival_time = None`, so the `arrival_time` argument is
ignored. -/
def reqInit (originInputText : Option String) (originInputIds : List Int)
    (arrivalTime : Option Int) : ReqState :=
  { originInputText := originInputText
    originInputIdsUnpadded := originInputIds
    outputIds := []
    arrivalTime := none
    decodedText := ""
    surrOffset := none
    readOffset := none
    prefixIndices := []
    lastNode := none
    returnLogprob := false
    decodeTokenLogprobs := []
    decodeTopLogprobs := []
    logprobStartLen := 0
    lastUpdateDecodeTokens := 0
    regexFsmState := 0 }

/-- Line 16. -/
def INIT_INCREMENTAL_DETOKENIZATION_OFFSET : Nat := 5

/-- The test `text.endswith("�")` for the one-character replacement marker
U+FFFD (lines 170 and 263). -/
def endsWithReplacement (s : String) : Bool :=
  s.toList.getLast? == some (Char.ofNat 0xFFFD)

/-- `Req.init_detokenize_incrementally` (lines 141-154): on the first
iteration the cursor is initialized to the prompt boundary with the surrogate
window `max(read_offset - INIT_INCREMENTAL_DETOKENIZATION_OFFSET, 0)`; returns
`(surr_ids, read_ids, len(all_ids))` with the possibly updated request. -/
def initDetokenizeIncrementally (r : ReqState) :
    (List Int × List Int × Nat) × ReqState :=
  let r1 :=
    if r.surrOffset.isNone || r.readOffset.isNone then
      { r with
        readOffset := some r.originInputIdsUnpadded.length
        surrOffset := some
          (r.originInputIdsUnpadded.length - INIT_INCREMENTAL_DETOKENIZATION_OFFSET) }
    else r
  let so := r1.surrOffset.getD 0
  let ro := r1.readOffset.getD 0
  let allIds := r1.originInputIdsUnpadded ++ r1.outputIds
  (((allIds.take ro).drop so, allIds.drop so, allIds.length), r1)

/-- `Req.detokenize_incrementally` (lines 156-179), with the tokenizer's
`decode` as a parameter (its skip-special-token flags are fixed per request
and folded into `decode`).  Returns `((emitted, new_text), updated request)`;
the `new_text[len(surr_text):]` character slice becomes a `toList.drop`. -/
def detokenizeIncrementally (decode : List Int → String) (r : ReqState)
    (inplace : Bool) : (Bool × String) × ReqState :=
  match initDetokenizeIncrementally r with
  | ((surrIds, readIds, numAllTokens), r1) =>
    let surrText := decode surrIds
    let newText := decode readIds
    if surrText.length < newText.length ∧ endsWithReplacement newText = false then
      let emitted := String.mk (newText.toList.drop surrText.length)
      let r2 :=
        if inplace then
          { r1 with
            decodedText := r1.decodedText ++ emitted
            surrOffset := r1.readOffset
            readOffset := some numAllTokens }
        else r1
      ((true, emitted), r2)
    else
      ((false, ""), r1)

/-- The common-prefix loop of `jump_forward_and_retokenize` (lines 271-276):
walk `old_output_ids`, comparing against the new output ids at the same index
and stopping at the first mismatch.  Python raises IndexError when the new
list is exhausted before a mismatch, modelled by `none`. -/
def kLoop : List Int → List Int → Option Nat
  | [], _ => some 0
  | _ :: _, [] => none
  | a :: as, b :: bs => if a = b then (kLoop as bs).map (· + 1) else some 0

/-- Length of the longest common starting run of two token lists. -/
def lcpLen : List Int → List Int → Nat
  | a :: as, b :: bs => if a = b then lcpLen as bs + 1 else 0
  | _, _ => 0

/-- The origin text used by `jump_forward_and_retokenize` (lines 235-239):
the stored `origin_input_text`, recovered by decoding the unpadded prompt ids
when absent. -/
def jfOriginText (decode : List Int → String) (r : ReqState) : String :=
  match r.originInputText with
  | some t => t
  | none => decode r.originInputIdsUnpadded

/-- The retokenized id sequence
`all_ids = encode(origin text + decoded_text + jump_forward_str)`
(lines 241-242). -/
def jfAllIds (encode : String → List Int) (decode : List Int → String)
    (r : ReqState) (jumpForwardStr : String) : List Int :=
  encode (jfOriginText decode r ++ r.decodedText ++ jumpForwardStr)

/-- The surrogate offset chosen by the loop at lines 258-265: the first
`i = 0, ..., 4` such that decoding the last `i` retokenized ids does not end
in the replacement character gives `read_offset - i`; otherwise the offset
stays at the prompt boundary set at line 255. -/
def jfSurrOffset (decode : List Int → String) (allIds : List Int)
    (promptTokens : Nat) : Nat :=
  match (List.range INIT_INCREMENTAL_DETOKENIZATION_OFFSET).find?
      (fun i => ! endsWithReplacement (decode (allIds.drop (allIds.length - i)))) with
  | some i => allIds.length - i
  | none => promptTokens

/-- `Req.jump_forward_and_retokenize` (lines 234-282), with the tokenizer's
`encode`/`decode` as parameters.  The result is `some (false, r)` when the
token-fusion test (line 245) aborts the jump — only `origin_input_text` may
have been filled in by then (lines 235-239) — `some (true, r)` on success, and
`none` when the logprob common-prefix loop would raise (see `kLoop`).  The
fusion test compares `all_ids[prompt_tokens - 1]` with
`origin_input_ids_unpadded[-1]`; both reads are modelled by `get?`/`getLast?`
(Python raises on out-of-range reads; every use below keeps them in range with
a nonempty prompt). -/
def jumpForwardAndRetokenize (encode : String → List Int)
    (decode : List Int → String) (r : ReqState) (jumpForwardStr : String)
    (nextState : Int) : Option (Bool × ReqState) :=
  if (jfAllIds encode decode r jumpForwardStr).get?
        (r.originInputIdsUnpadded.length - 1)
      ≠ r.originInputIdsUnpadded.getLast? then
    some (false, { r with originInputText := some (jfOriginText decode r) })
  else if r.returnLogprob then
    match kLoop r.outputIds
        ((jfAllIds encode decode r jumpForwardStr).drop
          r.originInputIdsUnpadded.length) with
    | none => none
    | some k =>
      some (true,
        { r with
          originInputText := some (jfOriginText decode r)
          outputIds := (jfAllIds encode decode r jumpForwardStr).drop
            r.originInputIdsUnpadded.length
          decodedText := r.decodedText ++ jumpForwardStr
          surrOffset := some (jfSurrOffset decode
            (jfAllIds encode decode r jumpForwardStr)
            r.originInputIdsUnpadded.length)
          readOffset := some (jfAllIds encode decode r jumpForwardStr).length
          regexFsmState := nextState
          decodeTokenLogprobs := r.decodeTokenLogprobs.take k
          decodeTopLogprobs := r.decodeTopLogprobs.take k
          logprobStartLen := r.originInputIdsUnpadded.length + k
          lastUpdateDecodeTokens :=
            ((jfAllIds encode decode r jumpForwardStr).drop
              r.originInputIdsUnpadded.length).length - k })
  else
    some (true,
      { r with
        originInputText := some (jfOriginText decode r)
        outputIds := (jfAllIds encode decode r jumpForwardStr).drop
          r.originInputIdsUnpadded.length
        decodedText := r.decodedText ++ jumpForwardStr
        surrOffset := some (jfSurrOffset decode
          (jfAllIds encode decode r jumpForwardStr)
          r.originInputIdsUnpadded.length)
        readOffset := some (jfAllIds encode decode r jumpForwardStr).length
        regexFsmState := nextState })

/-- Result of one `check_for_jump_forward` iteration for a single request
(lines 564-634): aborted at the incremental-decode test (line 591), aborted at
the token-fusion test (line 603), jump performed, or a modelled runtime
error. -/
inductive JumpForwardStep where
  | abortedDecode (r : ReqState)
  | abortedFusion (r : ReqState)
  | jumped (r : ReqState) (newText : String)
  | runtimeError
deriving DecidableEq

/-- The per-request body of `Batch.check_for_jump_forward` (lines 585-607) for
a request whose automaton produced the forced suffix ids `suffixIds` and whose
`jump_forward_symbol` call yields `(jumpForwardSym, nextState)`.  Caution on
lines 587-592 and 606: `cur_output_ids = req.output_ids` binds the *same*
Python list object that `req.output_ids.extend(suffix_ids)` then mutates in
place, so the "revert" `req.output_ids = cur_output_ids` on either abort path
reinstates the already-extended list; the model reflects this by keeping the
extended `outputIds` on both abort outcomes.  The tree-cache insertion and
lock release of the success path (lines 609-619) are outside this modelled
fragment. -/
def checkForJumpForwardOne (encode : String → List Int)
    (decode : List Int → String) (r : ReqState) (suffixIds : List Int)
    (jumpForwardSym : String) (nextState : Int) : JumpForwardStep :=
  match detokenizeIncrementally decode
      { r with outputIds := r.outputIds ++ suffixIds } false with
  | ((decodeRes, newText), r1) =>
    if decodeRes = false then
      .abortedDecode r1
    else
      match jumpForwardAndRetokenize encode decode r1
          (newText ++ jumpForwardSym) nextState with
      | none => .runtimeError
      | some (false, r2) => .abortedFusion r2
      | some (true, r2) => .jumped r2 newText

/-- A concrete request state exercising the token-fusion abort: prompt ids
[10, 11] with origin text "AB", one prior output token 20 decoded as "C", and
an initialized detokenization cursor. -/
def c4req : ReqState :=
  { originInputText := some "AB"
    originInputIdsUnpadded := [10, 11]
    outputIds := [20]
    arrivalTime := none
    decodedText := "C"
    surrOffset := some 2
    readOffset := some 3
    prefixIndices := []
    lastNode := none
    returnLogprob := false
    decodeTokenLogprobs := []
    decodeTopLogprobs := []
    logprobStartLen := 0
    lastUpdateDecodeTokens := 0
    regexFsmState := 0 }

/-- The second component of Python's tuple comparison on the retraction sort
keys (line 476): distinct `arrival_time` components compare as numbers.
Comparing `None` with a number raises TypeError in Python; that branch is
unreachable because `Req.__init__` always stores `None` (line 84), and the
model returns `false` there. -/
def optIntLt : Option Int → Option Int → Bool
  | some x, some y => decide (x < y)
  | _, _ => false

/-- Python tuple `<` on the `(arrival_time, len(output_ids))` sort keys of
`retract_decode` (line 476): equal first components defer to the second. -/
def pyKeyLt (a b : Option Int × Nat) : Bool :=
  if a.1 = b.1 then decide (a.2 < b.2) else optIntLt a.1 b.1

/-- Insert into an ascending list, after every element not strictly greater.
Folded left over the input this gives a stable ascending sort, matching
Python's stable `list.sort`. -/
def insertAsc {α : Type} (lt : α → α → Bool) (a : α) : List α → List α
  | [] => [a]
  | b :: bs => if lt a b then a :: b :: bs else b :: insertAsc lt a bs

/-- Stable ascending insertion sort (model of Python's `list.sort`). -/
def sortAsc {α : Type} (lt : α → α → Bool) (l : List α) : List α :=
  l.foldl (fun acc a => insertAsc lt a acc) []

/-- Default `Req` for out-of-range `getD` reads (never hit in-range). -/
def defaultReq : ReqState := reqInit none [] none

/-- The sort key of `retract_decode` at batch position `i` (line 476). -/
def retractKey (reqs : List ReqState) (i : Nat) : Option Int × Nat :=
  ((reqs.getD i defaultReq).arrivalTime,
   (reqs.getD i defaultReq).outputIds.length)

/-- `sorted_indices` as computed at lines 474-477. -/
def retractOrder (reqs : List ReqState) : List Nat :=
  sortAsc (fun i j => pyKeyLt (retractKey reqs i) (retractKey reqs j))
    (List.range reqs.length)

/-- A batch as `retract_decode` reads it: index-aligned requests, their
`req_to_token` rows (via `req_pool_indices`), and the `seq_lens` column. -/
structure RetractBatch where
  reqs : List ReqState
  rows : List (List Nat)
  seqLens : List Nat
deriving DecidableEq

/-- The slot indices released for batch position `idx`:
`req_to_token[req_pool_indices[idx]][last_uncached_pos : seq_lens[idx]]` with
`last_uncached_pos = len(req.prefix_indices)` (lines 488-491). -/
def retractSlice (b : RetractBatch) (idx : Nat) : List Nat :=
  ((b.rows.getD idx []).take (b.seqLens.getD idx 0)).drop
    (b.reqs.getD idx defaultReq).prefixIndices.length

/-- The retraction loop of `retract_decode` (lines 482-495), processing the
reversed sorted index list (Python pops victims off the END of
`sorted_indices`): while the pool cannot hold one slot per batch request, pop
a victim, release its uncached slots (`dec_refs`) and record the
`dec_lock_ref(req.last_node)` call in `lockLog`.  `req.reset_state()`
(line 495) is not defined in the embedded sources; per the spec it only
returns the victim to a waiting state, which no later loop read depends on, so
the request list is left unchanged.  Popping from an exhausted list raises in
Python, modelled by `none`. -/
def retractLoop (b : RetractBatch) :
    List Nat → TokenToKVPool → List Nat → List (Option Nat) →
      Option (TokenToKVPool × List Nat × List Nat × List (Option Nat))
  | [], pool, retrAcc, lockLog =>
    if pool.availableSize < b.reqs.length then none
    else some (pool, [], retrAcc, lockLog)
  | idx :: rest, pool, retrAcc, lockLog =>
    if pool.availableSize < b.reqs.length then
      retractLoop b rest (pool.decRefs (retractSlice b idx))
        (retrAcc ++ [idx]) (lockLog ++ [(b.reqs.getD idx defaultReq).lastNode])
    else
      some (pool, idx :: rest, retrAcc, lockLog)

/-- `Batch.retract_decode` (lines 473-499): sort positions ascending by
`(arrival_time, len(output_ids))`, retract from the end of the sorted list
until `available_size() >= len(self.reqs)`, then `filter_batch` keeps the
un-popped positions in sorted order.  Returns the final pool, the remaining
positions, the retracted positions in retraction order, and the
`dec_lock_ref` log. -/
def retractDecode (b : RetractBatch) (pool : TokenToKVPool) :
    Option (TokenToKVPool × List Nat × List Nat × List (Option Nat)) :=
  match retractLoop b (retractOrder b.reqs).reverse pool [] [] with
  | none => none
  | some (p2, rem, retr, lg) => some (p2, rem.reverse, retr, lg)

/-- Concrete retraction batch for C3: request 0 generated 1 output token,
request 1 generated 5; both were built by `Req.__init__` (arrival time
`None`). -/
def c3batch : RetractBatch :=
  { reqs :=
      [{ reqInit none [40] none with outputIds := [9] },
       { reqInit none [41] none with
           outputIds := [1, 2, 3, 4, 5], lastNode := some 3 }]
    rows := [[0, 6], [1, 2, 3, 4, 5, 7]]
    seqLens := [2, 6] }

/-- Concrete retraction batch for C8: request 1 holds a cached one-slot prefix
(slot 4, also referenced by the radix cache) plus three uncached slots, and a
locked node id 7. -/
def c8batch : RetractBatch :=
  { reqs :=
      [{ reqInit none [50] none with outputIds := [9] },
       { reqInit none [51] none with
           outputIds := [1, 2, 3], prefixIndices := [4], lastNode := some 7 }]
    rows := [[0, 5], [4, 1, 2, 3]]
    seqLens := [2, 4] }

/-- `probs.sort(descending=True)` for one batch row (line 892): probability
and original token index pairs sorted by descending probability (`probs_sort`
are the first components, `probs_idx` the second).  Reuses `insertAsc` with
the reversed strict comparison; tie order is irrelevant to the sampled
distribution. -/
def sortProbs (probs : List ℚ) : List (ℚ × Nat) :=
  sortAsc (fun a b => decide (b.1 < a.1)) (probs.enum.map (fun p => (p.2, p.1)))

/-- `probs_sort` of `_top_p_top_k` after the two masking writes (lines
893-897): `probs_sum - probs_sort` at rank `j` is the cumulative sum minus the
entry itself, i.e. the mass of the strictly higher-ranked entries
`(take j).sum`, so an entry is zeroed when that mass exceeds `top_p` OR its
0-based rank is at least `top_k`. -/
def maskedProbs (ps : List ℚ) (topP : ℚ) (topK : Int) : List ℚ :=
  ps.enum.map (fun p =>
    if topP < (ps.take p.1).sum ∨ topK ≤ (p.1 : Int) then 0 else p.2)

/-- `_top_p_top_k` for one batch row (lines 891-899): descending sort, joint
top-p/top-k masking, and the final `probs_sort.div_(probs_sort.max(dim=-1))`
rescaling by the row maximum (the entries are nonnegative, so the `foldr max
0` below computes that maximum).  Returns the filtered weights and the rank-to
-token-index permutation. -/
def topPTopK (probs : List ℚ) (topP : ℚ) (topK : Int) : List ℚ × List Nat :=
  ((maskedProbs ((sortProbs probs).map (fun p => p.1)) topP topK).map
      (fun q => q /
        (maskedProbs ((sortProbs probs).map (fun p => p.1)) topP topK).foldr max 0),
   (sortProbs probs).map (fun p => p.2))

/-- First index at or after `start` within `fuel` steps satisfying `p`. -/
def firstIdxFrom (p : Nat → Bool) : Nat → Nat → Option Nat
  | _, 0 => none
  | start, fuel + 1 =>
    if p start then some start else firstIdxFrom p (start + 1) fuel

/-- Modelled from the spec: `torch.multinomial(weights, num_samples=1)` at
line 872 — "draw one token per Request by weighted random choice" — realized
by inverse-CDF sampling: for a uniform draw `u` from [0, 1), return the first
rank whose inclusive cumulative weight exceeds `u` times the total weight. -/
def weightedPick (w : List ℚ) (u : ℚ) : Option Nat :=
  firstIdxFrom (fun j => decide (u * w.sum < (w.take (j + 1)).sum)) 0 w.length

/-- The per-row core of `Batch.sample` after the softmax (lines 870-878):
apply `_top_p_top_k`, draw a rank from the filtered weights
(`torch.multinomial`), and gather the original token index
(`batch_next_token_ids`) and the drawn filtered weight
(`batch_next_token_probs`). -/
def sampleOne (probs : List ℚ) (topP : ℚ) (topK : Int) (u : ℚ) :
    Option (Nat × ℚ) :=
  match weightedPick (topPTopK probs topP topK).1 u with
  | some j => some ((topPTopK probs topP topK).2.getD j 0,
      (topPTopK probs topP topK).1.getD j 0)
  | none => none

/-- A concrete request state exercising a successful jump-forward with
logprob reporting: prompt [10] ("A"), prior output [20, 21] decoded "BC", two
recorded decode-logprob entries. -/
def c9req : ReqState :=
  { originInputText := some "A"
    originInputIdsUnpadded := [10]
    outputIds := [20, 21]
    arrivalTime := none
    decodedText := "BC"
    surrOffset := some 1
    readOffset := some 3
    prefixIndices := []
    lastNode := none
    returnLogprob := true
    decodeTokenLogprobs := [1, 2]
    decodeTopLogprobs := [3, 4]
    logprobStartLen := 0
    lastUpdateDecodeTokens := 0
    regexFsmState := 0 }

/-- The result of the successful jump-forward on `c9req` with forced string
"D" retokenizing to [10, 20, 30]: common prefix k = 1, so one logprob entry
is kept, `logprob_start_len = 1 + 1` and `last_update_decode_tokens =
2 - 1`. -/
def c9out : ReqState :=
  { originInputText := some "A"
    originInputIdsUnpadded := [10]
    outputIds := [20, 30]
    arrivalTime := none
    decodedText := "BCD"
    surrOffset := some 3
    readOffset := some 3
    prefixIndices := []
    lastNode := none
    returnLogprob := true
    decodeTokenLogprobs := [1]
    decodeTopLogprobs := [3]
    logprobStartLen := 2
    lastUpdateDecodeTokens := 1
    regexFsmState := 5 }

theorem alloc_some_length {p : TokenToKVPool} {n : Nat} {slots : List Nat}
    {p2 : TokenToKVPool} (h : p.alloc n = some (slots, p2)) :
    slots.length = n := by
  unfold TokenToKVPool.alloc at h
  split at h
  · next hle =>
    simp only [Option.some.injEq, Prod.mk.injEq] at h
    obtain ⟨h1, -⟩ := h
    subst h1
    have hle2 : n ≤ p.freeSlots.length := hle
    simp [List.length_take]
    exact hle2
  · exact absurd h (by simp)

theorem extendNumTokens_eq_sum (reqs : List ExtendReq) :
    extendNumTokens reqs = (reqs.map (fun r => r.seqLen - r.prefixLenOf)).sum := by
  have hfun : (fun r : ExtendReq => r.seqLen - r.prefixLenOf) = ExtendReq.extendLen := by
    funext r
    simp [ExtendReq.seqLen]
  rw [hfun]
  have hsplit : ∀ l : List ExtendReq,
      (l.map ExtendReq.seqLen).sum
        = (l.map ExtendReq.prefixLenOf).sum + (l.map ExtendReq.extendLen).sum := by
    intro l
    induction l with
    | nil => rfl
    | cons b bs ihb =>
      simp only [List.map_cons, List.sum_cons, ihb, ExtendReq.seqLen]
      omega
  unfold extendNumTokens
  rw [hsplit]
  omega

/-- C1 is false as stated: with no free slots, no retraction candidates, and an
eviction pass that frees nothing (spec section 4.2 allows eviction to reclaim
nothing when no unlocked leaves remain), `prepare_for_extend` reaches `exit()`
(lines 399-402), i.e. the process is terminated; no rejected-admission error
result is ever produced. -/
theorem c1_claim_false :
    prepareForExtendAlloc (fun _ p => p) [⟨[0], []⟩] ⟨[]⟩
      = ExtendOutcome.processExit := by
  decide

/-- C1 (amended): if the token slot pool cannot satisfy the required suffix
allocation even after one cache-eviction pass, both `prepare_for_extend`
(lines 394-402) and `prepare_for_extend_chunk_prefill` (lines 718-727)
terminate the process via `exit()`; no error result is returned to the
caller. -/
theorem c1_extend_exhausted_terminates
    (evict : Nat → TokenToKVPool → TokenToKVPool)
    (reqs : List ExtendReq) (creqs : List ChunkReq)
    (pool cpool : TokenToKVPool) (disable : Bool)
    (h1 : pool.alloc (extendNumTokens reqs) = none)
    (h2 : (evict (extendNumTokens reqs) pool).alloc (extendNumTokens reqs) = none)
    (h3 : cpool.alloc (chunkExtendNumTokens creqs) = none)
    (h4 : (evict (chunkExtendNumTokens creqs) cpool).alloc
            (chunkExtendNumTokens creqs) = none) :
    prepareForExtendAlloc evict reqs pool = ExtendOutcome.processExit ∧
    prepareForExtendChunkAlloc disable evict creqs cpool
      = ExtendOutcome.processExit := by
  constructor
  · unfold prepareForExtendAlloc
    rw [h1, h2]
  · unfold prepareForExtendChunkAlloc
    rw [h3]
    cases disable with
    | true => rfl
    | false =>
      simp only [if_neg]
      rw [h4]
      simp

theorem c1_witness :
    prepareForExtendAlloc (fun _ p => p) [⟨[0], []⟩] ⟨[1]⟩
      = ExtendOutcome.processExit ∧
    prepareForExtendChunkAlloc false (fun _ p => p)
      [⟨[0], [], 0, 1⟩] ⟨[1]⟩ = ExtendOutcome.processExit :=
  c1_extend_exhausted_terminates (fun _ p => p) [⟨[0], []⟩] [⟨[0], [], 0, 1⟩]
    ⟨[1]⟩ ⟨[1]⟩ false (by decide) (by decide) (by decide) (by decide)

/-- C5: on a successful `prepare_for_extend`, the number of newly allocated KV
slots is exactly the sum over the batch of (sequence length minus cached prefix
length), i.e. the unmatched suffix tokens only (lines 393-394); if the first
allocation fails, eviction runs and the allocation is retried exactly once
(lines 395-402): a successful retry yields its result, a failed retry
terminates. -/
theorem c5_extend_allocates_exact_suffix
    (evict : Nat → TokenToKVPool → TokenToKVPool)
    (reqs : List ExtendReq) (pool : TokenToKVPool) :
    (∀ slots pool2, prepareForExtendAlloc evict reqs pool = .ok (slots, pool2) →
      slots.length = (reqs.map (fun r => r.seqLen - r.prefixLenOf)).sum) ∧
    (pool.alloc (extendNumTokens reqs) = none →
      (∀ res, (evict (extendNumTokens reqs) pool).alloc (extendNumTokens reqs)
            = some res →
          prepareForExtendAlloc evict reqs pool = .ok res) ∧
      ((evict (extendNumTokens reqs) pool).alloc (extendNumTokens reqs) = none →
          prepareForExtendAlloc evict reqs pool = .processExit)) := by
  refine ⟨?_, ?_⟩
  · intro slots pool2 h
    unfold prepareForExtendAlloc at h
    rw [← extendNumTokens_eq_sum]
    cases hfst : pool.alloc (extendNumTokens reqs) with
    | some res =>
      rw [hfst] at h
      cases h
      exact alloc_some_length hfst
    | none =>
      rw [hfst] at h
      cases hsnd : (evict (extendNumTokens reqs) pool).alloc (extendNumTokens reqs) with
      | some res =>
        rw [hsnd] at h
        cases h
        exact alloc_some_length hsnd
      | none =>
        rw [hsnd] at h
        cases h
  · intro h1
    refine ⟨?_, ?_⟩
    · intro res h2
      unfold prepareForExtendAlloc
      rw [h1, h2]
    · intro h2
      unfold prepareForExtendAlloc
      rw [h1, h2]

/-- Witness for C5 at Scenario A of the spec: two requests share a 4-token
cached-and-locked prompt segment and add 2 and 6 new tokens respectively; the
extend allocation hands out exactly 2 + 6 = 8 new slots (not 16). -/
theorem c5_witness :
    ([4, 5, 6, 7, 8, 9, 10, 11] : List Nat).length
      = (([⟨[0, 1, 2, 3, 4, 5], [0, 1, 2, 3]⟩,
           ⟨[0, 1, 2, 3, 4, 5, 6, 7, 8, 9], [0, 1, 2, 3]⟩] : List ExtendReq).map
          (fun r => r.seqLen - r.prefixLenOf)).sum :=
  (c5_extend_allocates_exact_suffix (fun _ p => p)
      [⟨[0, 1, 2, 3, 4, 5], [0, 1, 2, 3]⟩,
       ⟨[0, 1, 2, 3, 4, 5, 6, 7, 8, 9], [0, 1, 2, 3]⟩]
      ⟨[1, 1, 1, 1, 0, 0, 0, 0, 0, 0, 0, 0]⟩).1
    [4, 5, 6, 7, 8, 9, 10, 11]
    ⟨[1, 1, 1, 1, 1, 1, 1, 1, 1, 1, 1, 1]⟩ (by decide)

/-- C2 is false as stated: with max_new_tokens=3, end-of-sequence id 2,
ignore_eos false and output token sequence [5, 7, 2] after the third sampled
token, `check_finished` sets FINISH_LENGTH — the length test (line 188)
precedes the eos test (line 192) — not FINISH_MATCHED_TOKEN. -/
theorem c2_claim_false :
    checkFinished (fun _ => "") 2 ⟨3, false, [], 0⟩ "" [5, 7, 2] none
        = some (.FINISH_LENGTH 3) ∧
      checkFinished (fun _ => "") 2 ⟨3, false, [], 0⟩ "" [5, 7, 2] none
        ≠ some (.FINISH_MATCHED_TOKEN 2) := by
  decide

/-- C2 (amended): `check_finished` evaluates the output-length bound before the
end-of-sequence test, so on a step where the output length has reached
max_new_tokens the finish reason is FINISH_LENGTH even when the last output
token is the end-of-sequence id; in Scenario C the third step finishes with
FINISH_LENGTH(3). -/
theorem c2_length_test_precedes_eos
    (decode : List Int → String) (eosTokenId : Int) (sp : SamplingParams)
    (decodedText : String) (outputIds : List Int)
    (hlen : sp.maxNewTokens ≤ outputIds.length) :
    checkFinished decode eosTokenId sp decodedText outputIds none
      = some (.FINISH_LENGTH outputIds.length) := by
  unfold checkFinished
  simp [hlen]

theorem c2_witness :
    checkFinished (fun _ => "") 2 ⟨3, false, ["x"], 3⟩ "abc" [5, 7, 2] none
      = some (.FINISH_LENGTH 3) :=
  c2_length_test_precedes_eos (fun _ => "") 2 ⟨3, false, ["x"], 3⟩ "abc"
    [5, 7, 2] (by decide)

theorem kLoop_eq_lcpLen : ∀ (old new : List Int) (k : Nat),
    kLoop old new = some k → k = lcpLen old new := by
  intro old
  induction old with
  | nil =>
    intro new k h
    rw [show kLoop [] new = some 0 from rfl] at h
    injection h with h
    subst h
    cases new <;> rfl
  | cons a as ih =>
    intro new k h
    cases new with
    | nil => exact absurd h (by rw [show kLoop (a :: as) [] = none from rfl]; simp)
    | cons b bs =>
      by_cases hab : a = b
      · rw [show kLoop (a :: as) (b :: bs)
              = if a = b then (kLoop as bs).map (· + 1) else some 0 from rfl,
            if_pos hab] at h
        cases hk : kLoop as bs with
        | none => rw [hk] at h; simp at h
        | some k0 =>
          rw [hk] at h
          simp only [Option.map_some', Option.some.injEq] at h
          subst h
          rw [show lcpLen (a :: as) (b :: bs)
                = if a = b then lcpLen as bs + 1 else 0 from rfl,
              if_pos hab]
          rw [ih bs k0 hk]
      · rw [show kLoop (a :: as) (b :: bs)
              = if a = b then (kLoop as bs).map (· + 1) else some 0 from rfl,
            if_neg hab] at h
        injection h with h
        subst h
        rw [show lcpLen (a :: as) (b :: bs)
              = if a = b then lcpLen as bs + 1 else 0 from rfl,
            if_neg hab]

/-- C4: at this input the jump-forward attempt reaches the token-fusion test
and aborts, but the request's output token sequence is NOT restored: the
revert `req.output_ids = cur_output_ids` (line 606) assigns back the same list
object that `req.output_ids.extend(suffix_ids)` (line 589) mutated in place,
so the forced suffix ids remain appended and output [20] becomes [20, 21].
Decoded text, detokenization offsets and automaton state are unchanged.  This
contradicts the revert intent recorded in the source comment "Current ids, for
cache and revert" (line 585). -/
theorem c4_fusion_abort_keeps_extended_output :
    checkForJumpForwardOne (fun _ => [10, 99, 30])
        (fun l => if l = [20] then "C" else if l = [20, 21] then "CD" else "")
        c4req [21] "E" 7
      = .abortedFusion { c4req with outputIds := [20, 21] } ∧
    c4req.outputIds = [20] := by
  constructor
  · decide
  · rfl

/-- C7: for every tokenizer decode and every request whose detokenization
cursor is already initialized, `detokenize_incrementally` (inplace) emits
nothing and leaves the request unchanged when the read-window decode ends with
the replacement character or yields no text beyond the surrogate-window
decode; otherwise it appends exactly the suffix of the newly decoded text
beyond the surrogate-decoded text, sets surr_offset to the previous
read_offset and read_offset to the total token count.  The default surrogate
window is INIT_INCREMENTAL_DETOKENIZATION_OFFSET = 5 tokens. -/
theorem c7_detokenize_incremental (decode : List Int → String) (r : ReqState)
    (so ro : Nat) (hso : r.surrOffset = some so) (hro : r.readOffset = some ro) :
    ((¬ (decode (((r.originInputIdsUnpadded ++ r.outputIds).take ro).drop so)).length
          < (decode ((r.originInputIdsUnpadded ++ r.outputIds).drop so)).length ∨
        endsWithReplacement (decode ((r.originInputIdsUnpadded ++ r.outputIds).drop so))
          = true) →
      detokenizeIncrementally decode r true = ((false, ""), r)) ∧
    ((decode (((r.originInputIdsUnpadded ++ r.outputIds).take ro).drop so)).length
          < (decode ((r.originInputIdsUnpadded ++ r.outputIds).drop so)).length →
      endsWithReplacement (decode ((r.originInputIdsUnpadded ++ r.outputIds).drop so))
          = false →
      detokenizeIncrementally decode r true
        = ((true,
            String.mk ((decode ((r.originInputIdsUnpadded ++ r.outputIds).drop so)).toList.drop
              (decode (((r.originInputIdsUnpadded ++ r.outputIds).take ro).drop so)).length)),
           { r with
             decodedText := r.decodedText ++
               String.mk ((decode ((r.originInputIdsUnpadded ++ r.outputIds).drop so)).toList.drop
                 (decode (((r.originInputIdsUnpadded ++ r.outputIds).take ro).drop so)).length)
             surrOffset := some ro
             readOffset := some (r.originInputIdsUnpadded ++ r.outputIds).length })) ∧
    INIT_INCREMENTAL_DETOKENIZATION_OFFSET = 5 := by
  have hinit : initDetokenizeIncrementally r
      = (((((r.originInputIdsUnpadded ++ r.outputIds).take ro).drop so,
           (r.originInputIdsUnpadded ++ r.outputIds).drop so,
           (r.originInputIdsUnpadded ++ r.outputIds).length), r)) := by
    unfold initDetokenizeIncrementally
    simp [hso, hro]
  refine ⟨?_, ?_, rfl⟩
  · intro hcase
    simp only [detokenizeIncrementally, hinit]
    rw [if_neg]
    intro hcon
    rcases hcase with hle | hrep
    · exact hle hcon.1
    · rw [hcon.2] at hrep
      exact Bool.false_ne_true hrep
  · intro hlt hrep
    simp only [detokenizeIncrementally, hinit]
    rw [if_pos ⟨hlt, hrep⟩, hro]
    simp

theorem c7_witness :
    detokenizeIncrementally (fun l => String.mk (l.map (fun _ => 'a')))
        { originInputText := none
          originInputIdsUnpadded := [1, 2]
          outputIds := [3]
          arrivalTime := none
          decodedText := "bb"
          surrOffset := some 2
          readOffset := some 2
          prefixIndices := []
          lastNode := none
          returnLogprob := false
          decodeTokenLogprobs := []
          decodeTopLogprobs := []
          logprobStartLen := 0
          lastUpdateDecodeTokens := 0
          regexFsmState := 0 } true
      = ((true, "a"),
         { originInputText := none
           originInputIdsUnpadded := [1, 2]
           outputIds := [3]
           arrivalTime := none
           decodedText := "bba"
           surrOffset := some 2
           readOffset := some 3
           prefixIndices := []
           lastNode := none
           returnLogprob := false
           decodeTokenLogprobs := []
           decodeTopLogprobs := []
           logprobStartLen := 0
           lastUpdateDecodeTokens := 0
           regexFsmState := 0 }) := by
  have h := (c7_detokenize_incremental (fun l => String.mk (l.map (fun _ => 'a')))
    { originInputText := none
      originInputIdsUnpadded := [1, 2]
      outputIds := [3]
      arrivalTime := none
      decodedText := "bb"
      surrOffset := some 2
      readOffset := some 2
      prefixIndices := []
      lastNode := none
      returnLogprob := false
      decodeTokenLogprobs := []
      decodeTopLogprobs := []
      logprobStartLen := 0
      lastUpdateDecodeTokens := 0
      regexFsmState := 0 } 2 2 rfl rfl).2.1 (by decide) (by decide)
  exact h

/-- C9: when `jump_forward_and_retokenize` succeeds for a request with logprob
reporting enabled, the recorded decode logprob lists are truncated to exactly
k entries, where k is the length of the longest common starting run of the old
and new output token sequences; `logprob_start_len` becomes the prompt token
count plus k and `last_update_decode_tokens` becomes the new output length
minus k (lines 269-280). -/
theorem c9_jump_forward_logprob_lcp (encode : String → List Int)
    (decode : List Int → String) (r : ReqState) (jfs : String) (ns : Int)
    (r2 : ReqState)
    (hlog : r.returnLogprob = true)
    (h : jumpForwardAndRetokenize encode decode r jfs ns = some (true, r2)) :
    r2.decodeTokenLogprobs = r.decodeTokenLogprobs.take
        (lcpLen r.outputIds
          ((jfAllIds encode decode r jfs).drop r.originInputIdsUnpadded.length)) ∧
    r2.decodeTopLogprobs = r.decodeTopLogprobs.take
        (lcpLen r.outputIds
          ((jfAllIds encode decode r jfs).drop r.originInputIdsUnpadded.length)) ∧
    r2.logprobStartLen = r.originInputIdsUnpadded.length +
        lcpLen r.outputIds
          ((jfAllIds encode decode r jfs).drop r.originInputIdsUnpadded.length) ∧
    r2.lastUpdateDecodeTokens =
        ((jfAllIds encode decode r jfs).drop r.originInputIdsUnpadded.length).length
          - lcpLen r.outputIds
              ((jfAllIds encode decode r jfs).drop r.originInputIdsUnpadded.length) := by
  unfold jumpForwardAndRetokenize at h
  split at h
  · exact absurd h (by simp)
  · cases hk : kLoop r.outputIds
        ((jfAllIds encode decode r jfs).drop r.originInputIdsUnpadded.length) with
    | none => rw [hk] at h; exact absurd h (by simp)
    | some k =>
      rw [hk] at h
      simp only [Option.some.injEq, Prod.mk.injEq, true_and] at h
      rw [← h]
      rw [← kLoop_eq_lcpLen _ _ _ hk]
      exact ⟨rfl, rfl, rfl, rfl⟩

theorem insertAsc_perm {α : Type} (lt : α → α → Bool) (a : α) :
    ∀ l : List α, List.Perm (insertAsc lt a l) (a :: l) := by
  intro l
  induction l with
  | nil => exact List.Perm.refl _
  | cons b bs ih =>
    rw [show insertAsc lt a (b :: bs)
        = if lt a b then a :: b :: bs else b :: insertAsc lt a bs from rfl]
    by_cases hab : lt a b
    · rw [if_pos hab]
    · rw [if_neg hab]
      exact (ih.cons b).trans (List.Perm.swap a b bs)

theorem foldl_insertAsc_perm {α : Type} (lt : α → α → Bool) :
    ∀ (l acc : List α),
      List.Perm (l.foldl (fun acc a => insertAsc lt a acc) acc) (acc ++ l) := by
  intro l
  induction l with
  | nil => intro acc; simp
  | cons a as ih =>
    intro acc
    rw [List.foldl_cons]
    have h1 := ih (insertAsc lt a acc)
    have h2 : List.Perm (insertAsc lt a acc ++ as) ((a :: acc) ++ as) :=
      (insertAsc_perm lt a acc).append_right as
    have h3 : List.Perm ((a :: acc) ++ as) (acc ++ a :: as) := by
      rw [List.cons_append]
      exact List.perm_middle.symm
    exact (h1.trans h2).trans h3

theorem sortAsc_perm {α : Type} (lt : α → α → Bool) (l : List α) :
    List.Perm (sortAsc lt l) l := by
  have h := foldl_insertAsc_perm lt l []
  simpa [sortAsc] using h

theorem insertAsc_pairwise_le {α : Type} (f : α → Nat) (a : α) :
    ∀ l : List α, l.Pairwise (fun x y => f x ≤ f y) →
      (insertAsc (fun x y => decide (f x < f y)) a l).Pairwise
        (fun x y => f x ≤ f y) := by
  intro l
  induction l with
  | nil =>
    intro _
    exact List.pairwise_singleton _ _
  | cons b bs ih =>
    intro hp
    rcases List.pairwise_cons.mp hp with ⟨hb, hbs⟩
    rw [show insertAsc (fun x y => decide (f x < f y)) a (b :: bs)
        = if decide (f a < f b) then a :: b :: bs
          else b :: insertAsc (fun x y => decide (f x < f y)) a bs from rfl]
    by_cases hab : f a < f b
    · rw [if_pos (by simpa using hab)]
      refine List.pairwise_cons.mpr ⟨?_, hp⟩
      intro y hy
      rcases List.mem_cons.mp hy with rfl | hy2
      · exact Nat.le_of_lt hab
      · exact Nat.le_of_lt (Nat.lt_of_lt_of_le hab (hb y hy2))
    · rw [if_neg (by simpa using hab)]
      refine List.pairwise_cons.mpr ⟨?_, ih hbs⟩
      intro y hy
      have hy3 : y ∈ a :: bs := (insertAsc_perm _ a bs).mem_iff.mp hy
      rcases List.mem_cons.mp hy3 with rfl | hy4
      · exact Nat.le_of_not_lt hab
      · exact hb y hy4

theorem foldl_insertAsc_pairwise_le {α : Type} (f : α → Nat) :
    ∀ (l acc : List α), acc.Pairwise (fun x y => f x ≤ f y) →
      (l.foldl (fun acc a => insertAsc (fun x y => decide (f x < f y)) a acc)
          acc).Pairwise (fun x y => f x ≤ f y) := by
  intro l
  induction l with
  | nil => intro acc h; simpa using h
  | cons a as ih =>
    intro acc h
    rw [List.foldl_cons]
    exact ih _ (insertAsc_pairwise_le f a acc h)

theorem sortAsc_pairwise_le {α : Type} (f : α → Nat) (l : List α) :
    (sortAsc (fun x y => decide (f x < f y)) l).Pairwise
      (fun x y => f x ≤ f y) :=
  foldl_insertAsc_pairwise_le f l [] List.Pairwise.nil

theorem retractOrder_all_none (reqs : List ReqState)
    (hnone : ∀ r ∈ reqs, r.arrivalTime = none) :
    retractOrder reqs
      = sortAsc (fun i j =>
          decide ((reqs.getD i defaultReq).outputIds.length
            < (reqs.getD j defaultReq).outputIds.length))
          (List.range reqs.length) := by
  have harr : ∀ i, (reqs.getD i defaultReq).arrivalTime = none := by
    intro i
    by_cases hi : i < reqs.length
    · apply hnone
      rw [List.getD_eq_getElem reqs defaultReq hi]
      exact List.getElem_mem hi
    · rw [List.getD_eq_default reqs defaultReq (Nat.le_of_not_lt hi)]
      rfl
  unfold retractOrder
  congr 1
  funext i j
  rw [show retractKey reqs i
      = (none, (reqs.getD i defaultReq).outputIds.length) from by
    unfold retractKey; rw [harr i]]
  rw [show retractKey reqs j
      = (none, (reqs.getD j defaultReq).outputIds.length) from by
    unfold retractKey; rw [harr j]]
  unfold pyKeyLt
  rw [if_pos rfl]

theorem retractLoop_spec (b : RetractBatch) :
    ∀ (revOrder : List Nat) (pool : TokenToKVPool) (acc : List Nat)
      (lg0 : List (Option Nat)) (p2 : TokenToKVPool) (rem retr : List Nat)
      (lg : List (Option Nat)),
      retractLoop b revOrder pool acc lg0 = some (p2, rem, retr, lg) →
      ∃ k, retr = acc ++ revOrder.take k ∧ rem = revOrder.drop k ∧
        p2 = (revOrder.take k).foldl
          (fun p idx => p.decRefs (retractSlice b idx)) pool ∧
        lg = lg0 ++ (revOrder.take k).map
          (fun idx => (b.reqs.getD idx defaultReq).lastNode) ∧
        b.reqs.length ≤ p2.availableSize := by
  intro revOrder
  induction revOrder with
  | nil =>
    intro pool acc lg0 p2 rem retr lg h
    rw [show retractLoop b [] pool acc lg0
        = if pool.availableSize < b.reqs.length then none
          else some (pool, [], acc, lg0) from rfl] at h
    split at h
    · exact absurd h (by simp)
    · next hge =>
      simp only [Option.some.injEq, Prod.mk.injEq] at h
      obtain ⟨hp, hrem, hretr, hlg⟩ := h
      refine ⟨0, by simp [hretr.symm], by simp [hrem.symm],
        by simp [hp.symm], by simp [hlg.symm], ?_⟩
      rw [← hp]
      exact Nat.le_of_not_lt hge
  | cons idx rest ih =>
    intro pool acc lg0 p2 rem retr lg h
    rw [show retractLoop b (idx :: rest) pool acc lg0
        = if pool.availableSize < b.reqs.length then
            retractLoop b rest (pool.decRefs (retractSlice b idx))
              (acc ++ [idx])
              (lg0 ++ [(b.reqs.getD idx defaultReq).lastNode])
          else some (pool, idx :: rest, acc, lg0) from rfl] at h
    split at h
    · obtain ⟨k, h1, h2, h3, h4, h5⟩ := ih _ _ _ _ _ _ _ h
      refine ⟨k + 1, ?_, ?_, ?_, ?_, h5⟩
      · rw [h1, List.take_succ_cons, List.append_assoc]
        rfl
      · rw [h2]
        rfl
      · rw [h3, List.take_succ_cons, List.foldl_cons]
      · rw [h4, List.take_succ_cons, List.map_cons, List.append_assoc]
        rfl
    · next hge =>
      simp only [Option.some.injEq, Prod.mk.injEq] at h
      obtain ⟨hp, hrem, hretr, hlg⟩ := h
      refine ⟨0, by simp [hretr.symm], by simp [hrem.symm],
        by simp [hp.symm], by simp [hlg.symm], ?_⟩
      rw [← hp]
      exact Nat.le_of_not_lt hge

theorem retractOrder_length (reqs : List ReqState) :
    (retractOrder reqs).length = reqs.length := by
  unfold retractOrder
  rw [(sortAsc_perm _ _).length_eq, List.length_range]

theorem retractDecode_spec (b : RetractBatch) (pool : TokenToKVPool)
    (p2 : TokenToKVPool) (rem retr : List Nat) (lg : List (Option Nat))
    (hrun : retractDecode b pool = some (p2, rem, retr, lg)) :
    ∃ k, retr = ((retractOrder b.reqs).reverse).take k ∧
      rem = (((retractOrder b.reqs).reverse).drop k).reverse ∧
      p2 = (((retractOrder b.reqs).reverse).take k).foldl
        (fun p idx => p.decRefs (retractSlice b idx)) pool ∧
      lg = (((retractOrder b.reqs).reverse).take k).map
        (fun idx => (b.reqs.getD idx defaultReq).lastNode) ∧
      b.reqs.length ≤ p2.availableSize := by
  unfold retractDecode at hrun
  cases hloop : retractLoop b (retractOrder b.reqs).reverse pool [] [] with
  | none => rw [hloop] at hrun; exact absurd hrun (by simp)
  | some res =>
    obtain ⟨p2x, remx, retrx, lgx⟩ := res
    rw [hloop] at hrun
    simp only [Option.some.injEq, Prod.mk.injEq] at hrun
    obtain ⟨hp, hrem, hretr, hlg⟩ := hrun
    obtain ⟨k, h1, h2, h3, h4, h5⟩ := retractLoop_spec b _ _ _ _ _ _ _ _ hloop
    exact ⟨k, by rw [← hretr, h1]; simp, by rw [← hrem, h2],
      by rw [← hp, h3], by rw [← hlg, h4]; simp, by rw [← hp]; exact h5⟩

/-- C3 is false as stated: in `c3batch` both requests carry `arrival_time =
None` (as `Req.__init__` guarantees) and the pool is exhausted, so one
retraction must occur; the first (and only) request retracted is index 1 with
5 output tokens while index 0 has only 1 — `retract_decode` pops the request
with the MOST generated tokens first, not the fewest. -/
theorem c3_claim_false :
    (retractDecode c3batch ⟨[1, 1, 1, 1, 1, 1, 1, 1]⟩).map
        (fun res => res.2.2.1) = some [1] ∧
    (c3batch.reqs.getD 1 defaultReq).outputIds.length = 5 ∧
    (c3batch.reqs.getD 0 defaultReq).outputIds.length = 1 := by
  decide

/-- C3 (amended): `retract_decode` sorts batch positions ascending by
`(arrival_time, len(output_ids))` and pops victims from the END of the sorted
list (lines 474-483); since `Req.__init__` pins `arrival_time` to `None`, the
first request retracted is one with the MOST output tokens generated so far —
the opposite end from the claim — and arrival order never differentiates. -/
theorem c3_retract_pops_most_progress_first
    (b : RetractBatch) (pool : TokenToKVPool)
    (hnone : ∀ r ∈ b.reqs, r.arrivalTime = none)
    (p2 : TokenToKVPool) (rem retr : List Nat) (lg : List (Option Nat))
    (hrun : retractDecode b pool = some (p2, rem, retr, lg))
    (i : Nat) (hfirst : retr.head? = some i) :
    ∀ j < b.reqs.length,
      (b.reqs.getD j defaultReq).outputIds.length
        ≤ (b.reqs.getD i defaultReq).outputIds.length := by
  obtain ⟨k, h1, -, -, -, -⟩ := retractDecode_spec b pool p2 rem retr lg hrun
  have hsorted := sortAsc_pairwise_le
    (fun idxv => (b.reqs.getD idxv defaultReq).outputIds.length)
    (List.range b.reqs.length)
  rw [← retractOrder_all_none b.reqs hnone] at hsorted
  have hrev : (retractOrder b.reqs).reverse.Pairwise
      (fun x y => (b.reqs.getD y defaultReq).outputIds.length
        ≤ (b.reqs.getD x defaultReq).outputIds.length) := by
    rw [List.pairwise_reverse]
    exact hsorted
  cases hrevlist : (retractOrder b.reqs).reverse with
  | nil =>
    rw [h1, hrevlist] at hfirst
    simp at hfirst
  | cons o os =>
    have hio : i = o := by
      rw [h1, hrevlist] at hfirst
      cases k with
      | zero => simp at hfirst
      | succ k0 =>
        rw [List.take_succ_cons] at hfirst
        simp at hfirst
        exact hfirst.symm
    subst hio
    rw [hrevlist] at hrev
    have hmax : ∀ y ∈ os,
        (b.reqs.getD y defaultReq).outputIds.length
          ≤ (b.reqs.getD i defaultReq).outputIds.length :=
      fun y hy => List.rel_of_pairwise_cons hrev hy
    intro j hj
    have hjmem : j ∈ (retractOrder b.reqs).reverse := by
      rw [List.mem_reverse]
      unfold retractOrder
      exact (sortAsc_perm _ _).symm.mem_iff.mp (List.mem_range.mpr hj)
    rw [hrevlist] at hjmem
    rcases List.mem_cons.mp hjmem with rfl | hjmem2
    · exact Nat.le_refl _
    · exact hmax j hjmem2

theorem c3_witness :
    (c3batch.reqs.getD 0 defaultReq).outputIds.length
      ≤ (c3batch.reqs.getD 1 defaultReq).outputIds.length :=
  c3_retract_pops_most_progress_first c3batch ⟨[1, 1, 1, 1, 1, 1, 1, 1]⟩
    (by decide) ⟨[1, 0, 0, 0, 0, 0, 1, 0]⟩ [0] [1] [some 3] (by decide)
    1 rfl 0 (by decide)

/-- C8: after a completed `retract_decode`, the pool holds at least one free
slot per remaining request (indeed per original batch entry, since the loop
guard uses the unfiltered `len(self.reqs)`); the retracted positions form an
initial segment of the reversed sorted order with no repetition, the final
pool is exactly the original pool with `dec_refs` applied once to each
retracted request's uncached slot slice `[len(prefix_indices), seq_len)` — no
slot released twice for the same request — and `dec_lock_ref` is recorded
exactly once per retracted request on its `last_node`. -/
theorem c8_retract_postconditions (b : RetractBatch) (pool : TokenToKVPool)
    (p2 : TokenToKVPool) (rem retr : List Nat) (lg : List (Option Nat))
    (hrun : retractDecode b pool = some (p2, rem, retr, lg)) :
    rem.length ≤ p2.availableSize ∧
    b.reqs.length ≤ p2.availableSize ∧
    retr ++ rem.reverse = (retractOrder b.reqs).reverse ∧
    retr.Nodup ∧
    p2 = retr.foldl (fun p idx => p.decRefs (retractSlice b idx)) pool ∧
    lg = retr.map (fun idx => (b.reqs.getD idx defaultReq).lastNode) := by
  obtain ⟨k, h1, h2, h3, h4, h5⟩ := retractDecode_spec b pool p2 rem retr lg hrun
  have hlenrev : (retractOrder b.reqs).reverse.length = b.reqs.length := by
    rw [List.length_reverse, retractOrder_length]
  have hremlen : rem.length ≤ b.reqs.length := by
    rw [h2, List.length_reverse, List.length_drop, hlenrev]
    omega
  have hnodup : (retractOrder b.reqs).reverse.Nodup := by
    rw [List.nodup_reverse]
    unfold retractOrder
    exact ((sortAsc_perm _ _).nodup_iff).mpr (List.nodup_range _)
  refine ⟨Nat.le_trans hremlen h5, h5, ?_, ?_, by rw [h3, ← h1], by rw [h4, ← h1]⟩
  · rw [h1, h2, List.reverse_reverse, List.take_append_drop]
  · rw [h1]
    exact hnodup.sublist (List.take_sublist k _)

theorem c8_witness :
    ([0] : List Nat).length
        ≤ (⟨[1, 0, 0, 0, 2, 1]⟩ : TokenToKVPool).availableSize ∧
    c8batch.reqs.length
        ≤ (⟨[1, 0, 0, 0, 2, 1]⟩ : TokenToKVPool).availableSize ∧
    [1] ++ ([0] : List Nat).reverse = (retractOrder c8batch.reqs).reverse ∧
    ([1] : List Nat).Nodup ∧
    (⟨[1, 0, 0, 0, 2, 1]⟩ : TokenToKVPool)
        = ([1] : List Nat).foldl
            (fun p idx => p.decRefs (retractSlice c8batch idx))
            ⟨[1, 1, 1, 1, 2, 1]⟩ ∧
    [some 7] = ([1] : List Nat).map
        (fun idx => (c8batch.reqs.getD idx defaultReq).lastNode) :=
  c8_retract_postconditions c8batch ⟨[1, 1, 1, 1, 2, 1]⟩ ⟨[1, 0, 0, 0, 2, 1]⟩
    [0] [1] [some 7] (by decide)

/-- C10: `Req.__init__` stores `None` into `arrival_time` regardless of its
`arrival_time` argument (line 84), and consequently for every batch whose
requests were built by `Req.__init__`, the victim ordering computed by
`retract_decode` coincides with the ordering by output-token count alone:
arrival order never participates. -/
theorem c10_arrival_time_ignored :
    (∀ (t : Option String) (ids : List Int) (at0 : Option Int),
        (reqInit t ids at0).arrivalTime = none) ∧
    (∀ reqs : List ReqState, (∀ r ∈ reqs, r.arrivalTime = none) →
      retractOrder reqs
        = sortAsc (fun i j =>
            decide ((reqs.getD i defaultReq).outputIds.length
              < (reqs.getD j defaultReq).outputIds.length))
            (List.range reqs.length)) :=
  ⟨fun _ _ _ => rfl, retractOrder_all_none⟩

theorem c10_witness :
    (reqInit (some "hi") [1, 2] (some 42)).arrivalTime = none ∧
    retractOrder c3batch.reqs
      = sortAsc (fun i j =>
          decide ((c3batch.reqs.getD i defaultReq).outputIds.length
            < (c3batch.reqs.getD j defaultReq).outputIds.length))
          (List.range c3batch.reqs.length) :=
  ⟨c10_arrival_time_ignored.1 (some "hi") [1, 2] (some 42),
   c10_arrival_time_ignored.2 c3batch.reqs (by decide)⟩

theorem firstIdxFrom_spec (p : Nat → Bool) :
    ∀ (fuel start j : Nat), firstIdxFrom p start fuel = some j →
      p j = true ∧ start ≤ j ∧ j < start + fuel ∧
        ∀ i, start ≤ i → i < j → p i = false := by
  intro fuel
  induction fuel with
  | zero =>
    intro start j h
    exact absurd h (by simp [firstIdxFrom])
  | succ f ih =>
    intro start j h
    rw [show firstIdxFrom p start (f + 1)
        = if p start then some start else firstIdxFrom p (start + 1) f from rfl] at h
    by_cases hs : p start = true
    · rw [if_pos hs] at h
      injection h with h
      subst h
      exact ⟨hs, Nat.le_refl _, by omega,
        fun i h1 h2 => absurd (Nat.lt_of_le_of_lt h1 h2) (Nat.lt_irrefl _)⟩
    · rw [if_neg hs] at h
      obtain ⟨hpj, hle, hlt, hmin⟩ := ih (start + 1) j h
      refine ⟨hpj, by omega, by omega, ?_⟩
      intro i h1 h2
      by_cases hi : i = start
      · subst hi
        exact Bool.eq_false_iff.mpr hs
      · exact hmin i (by omega) h2

theorem firstIdxFrom_exists (p : Nat → Bool) :
    ∀ (fuel start : Nat), (∃ j, start ≤ j ∧ j < start + fuel ∧ p j = true) →
      ∃ j, firstIdxFrom p start fuel = some j := by
  intro fuel
  induction fuel with
  | zero =>
    intro start h
    obtain ⟨j, h1, h2, -⟩ := h
    exact absurd h2 (by omega)
  | succ f ih =>
    intro start h
    obtain ⟨j, h1, h2, h3⟩ := h
    rw [show firstIdxFrom p start (f + 1)
        = if p start then some start else firstIdxFrom p (start + 1) f from rfl]
    by_cases hs : p start = true
    · rw [if_pos hs]
      exact ⟨start, rfl⟩
    · rw [if_neg hs]
      apply ih
      refine ⟨j, ?_, by omega, h3⟩
      rcases Nat.lt_or_ge start j with hlt | hge
      · omega
      · have hj : j = start := by omega
        subst hj
        exact absurd h3 hs

theorem take_succ_sum (w : List ℚ) (j : Nat) (hj : j < w.length) :
    (w.take (j + 1)).sum = (w.take j).sum + w.getD j 0 := by
  rw [List.take_succ, List.sum_append]
  congr 1
  rw [List.getElem?_eq_getElem hj, List.getD_eq_getElem w 0 hj]
  simp

theorem weightedPick_pos (w : List ℚ) (u : ℚ)
    (hnn : ∀ q ∈ w, 0 ≤ q) (hu0 : 0 ≤ u) (hu1 : u < 1) (hsum : 0 < w.sum) :
    ∃ j, weightedPick w u = some j ∧ j < w.length ∧ 0 < w.getD j 0 := by
  have hne : w.length ≠ 0 := by
    intro h0
    rw [List.length_eq_zero] at h0
    rw [h0] at hsum
    simp at hsum
  have hex : ∃ j, 0 ≤ j ∧ j < 0 + w.length ∧
      (fun j => decide (u * w.sum < (w.take (j + 1)).sum)) j = true := by
    refine ⟨w.length - 1, Nat.zero_le _, by omega, ?_⟩
    simp only [decide_eq_true_eq]
    rw [show w.length - 1 + 1 = w.length from by omega, List.take_length]
    calc u * w.sum < 1 * w.sum := mul_lt_mul_of_pos_right hu1 hsum
    _ = w.sum := one_mul _
  obtain ⟨j, hj⟩ := firstIdxFrom_exists _ _ _ hex
  obtain ⟨hpj, -, hlt, hmin⟩ := firstIdxFrom_spec _ _ _ _ hj
  simp only [decide_eq_true_eq] at hpj
  have hjlen : j < w.length := by omega
  refine ⟨j, hj, hjlen, ?_⟩
  rw [take_succ_sum w j hjlen] at hpj
  cases j with
  | zero =>
    simp only [List.take_zero, List.sum_nil, zero_add] at hpj
    have h0 : 0 ≤ u * w.sum := mul_nonneg hu0 (le_of_lt hsum)
    linarith
  | succ j0 =>
    have hm := hmin j0 (Nat.zero_le _) (Nat.lt_succ_self _)
    have hm2 : ¬ (u * w.sum < (w.take (j0 + 1)).sum) := of_decide_eq_false hm
    have hm3 : (w.take (j0 + 1)).sum ≤ u * w.sum := not_lt.mp hm2
    linarith

theorem firstIdxFrom_congr (p q : Nat → Bool) (hpq : ∀ i, p i = q i) :
    ∀ (fuel start : Nat), firstIdxFrom p start fuel = firstIdxFrom q start fuel := by
  intro fuel
  induction fuel with
  | zero => intro _; rfl
  | succ f ih =>
    intro start
    rw [show firstIdxFrom p start (f + 1)
        = if p start then some start else firstIdxFrom p (start + 1) f from rfl,
      show firstIdxFrom q start (f + 1)
        = if q start then some start else firstIdxFrom q (start + 1) f from rfl,
      hpq start, ih]

theorem sum_map_div (l : List ℚ) (m : ℚ) :
    (l.map (fun x => x / m)).sum = l.sum / m := by
  induction l with
  | nil => simp
  | cons a as ih => simp [ih, add_div]

theorem weightedPick_map_div (w : List ℚ) (m u : ℚ) (hm : 0 < m) :
    weightedPick (w.map (fun x => x / m)) u = weightedPick w u := by
  unfold weightedPick
  rw [List.length_map]
  apply firstIdxFrom_congr
  intro i
  rw [sum_map_div, ← List.map_take, sum_map_div, decide_eq_decide,
    ← mul_div_assoc]
  exact div_lt_div_iff_of_pos_right hm

theorem maskedProbs_length (ps : List ℚ) (topP : ℚ) (topK : Int) :
    (maskedProbs ps topP topK).length = ps.length := by
  unfold maskedProbs
  rw [List.length_map, List.enum_length]

theorem maskedProbs_getD (ps : List ℚ) (topP : ℚ) (topK : Int) (j : Nat)
    (hj : j < ps.length) :
    (maskedProbs ps topP topK).getD j 0
      = if topP < (ps.take j).sum ∨ topK ≤ (j : Int) then 0
        else ps.getD j 0 := by
  unfold maskedProbs
  rw [List.getD_eq_getD_get?, List.get?_eq_getElem?, List.getElem?_map,
    List.getElem?_enum, List.getElem?_eq_getElem hj]
  simp [List.getD_eq_getD_get?, List.get?_eq_getElem?, List.getElem?_eq_getElem hj]

theorem maskedProbs_nonneg (ps : List ℚ) (topP : ℚ) (topK : Int)
    (hnn : ∀ x ∈ ps, 0 ≤ x) :
    ∀ x ∈ maskedProbs ps topP topK, 0 ≤ x := by
  intro x hx
  unfold maskedProbs at hx
  rcases List.mem_map.mp hx with ⟨pr, hpr, hx2⟩
  by_cases hcond : topP < (ps.take pr.1).sum ∨ topK ≤ (pr.1 : Int)
  · rw [if_pos hcond] at hx2
    rw [← hx2]
  · rw [if_neg hcond] at hx2
    rw [← hx2]
    apply hnn
    have : pr.2 ∈ ps.enum.map Prod.snd := List.mem_map_of_mem Prod.snd hpr
    rwa [List.enum_map_snd] at this

theorem map_div_getD (l : List ℚ) (m : ℚ) (j : Nat) (hj : j < l.length) :
    (l.map (fun x => x / m)).getD j 0 = l.getD j 0 / m := by
  rw [List.getD_eq_getD_get?, List.get?_eq_getElem?, List.getElem?_map,
    List.getElem?_eq_getElem hj]
  simp [List.getD_eq_getD_get?, List.get?_eq_getElem?, List.getElem?_eq_getElem hj]

theorem le_foldr_max (l : List ℚ) : ∀ a ∈ l, a ≤ l.foldr max 0 := by
  induction l with
  | nil => intro a ha; cases ha
  | cons b bs ih =>
    intro a ha
    rcases List.mem_cons.mp ha with rfl | ha2
    · exact le_max_left _ _
    · exact le_trans (ih a ha2) (le_max_right _ _)

theorem getD_mem_of_lt (l : List ℚ) (j : Nat) (hj : j < l.length) :
    l.getD j 0 ∈ l := by
  rw [List.getD_eq_getElem l 0 hj]
  exact List.getElem_mem hj

theorem insertAsc_pairwise_ge {α : Type} (f : α → ℚ) (a : α) :
    ∀ l : List α, l.Pairwise (fun x y => f y ≤ f x) →
      (insertAsc (fun x y => decide (f y < f x)) a l).Pairwise
        (fun x y => f y ≤ f x) := by
  intro l
  induction l with
  | nil =>
    intro _
    exact List.pairwise_singleton _ _
  | cons b bs ih =>
    intro hp
    rcases List.pairwise_cons.mp hp with ⟨hb, hbs⟩
    rw [show insertAsc (fun x y => decide (f y < f x)) a (b :: bs)
        = if decide (f b < f a) then a :: b :: bs
          else b :: insertAsc (fun x y => decide (f y < f x)) a bs from rfl]
    by_cases hab : f b < f a
    · rw [if_pos (by simpa using hab)]
      refine List.pairwise_cons.mpr ⟨?_, hp⟩
      intro y hy
      rcases List.mem_cons.mp hy with rfl | hy2
      · exact le_of_lt hab
      · exact le_trans (hb y hy2) (le_of_lt hab)
    · rw [if_neg (by simpa using hab)]
      refine List.pairwise_cons.mpr ⟨?_, ih hbs⟩
      intro y hy
      have hy3 : y ∈ a :: bs := (insertAsc_perm _ a bs).mem_iff.mp hy
      rcases List.mem_cons.mp hy3 with rfl | hy4
      · exact le_of_not_lt hab
      · exact hb y hy4

theorem foldl_insertAsc_pairwise_ge {α : Type} (f : α → ℚ) :
    ∀ (l acc : List α), acc.Pairwise (fun x y => f y ≤ f x) →
      (l.foldl (fun acc a => insertAsc (fun x y => decide (f y < f x)) a acc)
          acc).Pairwise (fun x y => f y ≤ f x) := by
  intro l
  induction l with
  | nil => intro acc h; simpa using h
  | cons a as ih =>
    intro acc h
    rw [List.foldl_cons]
    exact ih _ (insertAsc_pairwise_ge f a acc h)

theorem sortProbs_perm (probs : List ℚ) :
    List.Perm (sortProbs probs) (probs.enum.map (fun p => (p.2, p.1))) :=
  sortAsc_perm _ _

theorem sortProbs_length (probs : List ℚ) :
    (sortProbs probs).length = probs.length := by
  rw [(sortProbs_perm probs).length_eq, List.length_map, List.enum_length]

theorem sortProbs_sorted (probs : List ℚ) :
    (sortProbs probs).Pairwise (fun x y => y.1 ≤ x.1) :=
  foldl_insertAsc_pairwise_ge Prod.fst _ [] List.Pairwise.nil

theorem sortProbs_fst_mem (probs : List ℚ) (x : ℚ)
    (hx : x ∈ (sortProbs probs).map (fun p => p.1)) : x ∈ probs := by
  rcases List.mem_map.mp hx with ⟨pr, hpr, hx2⟩
  have h2 : pr ∈ probs.enum.map (fun p => (p.2, p.1)) :=
    (sortProbs_perm probs).mem_iff.mp hpr
  rcases List.mem_map.mp h2 with ⟨q, hq, hq2⟩
  have h3 : q.2 ∈ probs.enum.map Prod.snd := List.mem_map_of_mem Prod.snd hq
  rw [List.enum_map_snd] at h3
  rw [← hx2, ← hq2]
  exact h3

theorem sortProbs_head_max (probs : List ℚ) (q : ℚ) (hq : q ∈ probs) :
    q ≤ ((sortProbs probs).map (fun p => p.1)).getD 0 0 := by
  have hq2 : q ∈ probs.enum.map Prod.snd := by rwa [List.enum_map_snd]
  rcases List.mem_map.mp hq2 with ⟨p, hp, hpq⟩
  have hmem : (p.2, p.1) ∈ sortProbs probs :=
    (sortProbs_perm probs).symm.mem_iff.mp
      (List.mem_map_of_mem (fun r => (r.2, r.1)) hp)
  have hsorted := sortProbs_sorted probs
  cases hs : sortProbs probs with
  | nil =>
    rw [hs] at hmem
    cases hmem
  | cons h t =>
    rw [hs] at hmem hsorted
    rw [show ((h :: t).map (fun p => p.1)).getD 0 0 = h.1 from rfl]
    rcases List.mem_cons.mp hmem with heq | hmem2
    · rw [← hpq]
      exact le_of_eq (by rw [← heq])
    · rw [← hpq]
      exact List.rel_of_pairwise_cons hsorted hmem2

/-- C6: for one batch row of softmax probabilities (nonnegative with positive
mass), `_top_p_top_k` sorts descending, then zeroes an entry exactly when the
mass of the strictly higher-ranked entries exceeds top_p or its rank reaches
top_k (or its own probability was already zero); the survivors are rescaled by
the positive row maximum — a proportional renormalization that leaves the
weighted draw unchanged — and `sample`'s weighted random draw always lands on
a surviving entry: its filtered weight is positive, its higher-ranked mass is
at most top_p, and its rank is below top_k; a zeroed entry is never
returned. -/
theorem c6_sample_top_p_top_k (probs : List ℚ) (topP : ℚ) (topK : Int) (u : ℚ)
    (hnn : ∀ q ∈ probs, 0 ≤ q) (hpos : ∃ q ∈ probs, 0 < q)
    (hp : 0 ≤ topP) (hk : 1 ≤ topK) (hu0 : 0 ≤ u) (hu1 : u < 1) :
    List.Perm (sortProbs probs) (probs.enum.map (fun p => (p.2, p.1))) ∧
    (sortProbs probs).Pairwise (fun x y => y.1 ≤ x.1) ∧
    (∀ j, j < probs.length →
      (0 < (topPTopK probs topP topK).1.getD j 0 ↔
        ((((sortProbs probs).map (fun p => p.1)).take j).sum ≤ topP ∧
          (j : Int) < topK ∧
          0 < ((sortProbs probs).map (fun p => p.1)).getD j 0))) ∧
    (∃ j tok wgt, sampleOne probs topP topK u = some (tok, wgt) ∧
      weightedPick (topPTopK probs topP topK).1 u = some j ∧
      tok = (topPTopK probs topP topK).2.getD j 0 ∧
      wgt = (topPTopK probs topP topK).1.getD j 0 ∧ 0 < wgt ∧
      (((sortProbs probs).map (fun p => p.1)).take j).sum ≤ topP ∧
      (j : Int) < topK) := by
  have hps_len : ((sortProbs probs).map (fun p => p.1)).length = probs.length := by
    rw [List.length_map, sortProbs_length]
  have hps_nn : ∀ x ∈ (sortProbs probs).map (fun p => p.1), 0 ≤ x :=
    fun x hx => hnn x (sortProbs_fst_mem probs x hx)
  obtain ⟨q0, hq0mem, hq0pos⟩ := hpos
  have hlen_pos : 0 < probs.length := by
    cases hl : probs with
    | nil => rw [hl] at hq0mem; cases hq0mem
    | cons a as => simp
  have hps0 : 0 < ((sortProbs probs).map (fun p => p.1)).getD 0 0 :=
    lt_of_lt_of_le hq0pos (sortProbs_head_max probs q0 hq0mem)
  have hmk_len : (maskedProbs ((sortProbs probs).map (fun p => p.1)) topP topK).length
      = probs.length := by
    rw [maskedProbs_length, hps_len]
  have hmk0 : (maskedProbs ((sortProbs probs).map (fun p => p.1)) topP topK).getD 0 0
      = ((sortProbs probs).map (fun p => p.1)).getD 0 0 := by
    rw [maskedProbs_getD _ _ _ 0 (by rw [hps_len]; exact hlen_pos)]
    rw [if_neg]
    intro hcon
    rcases hcon with h1 | h2
    · simp at h1
      exact absurd (lt_of_le_of_lt hp h1) (lt_irrefl 0)
    · omega
  have hmk_nn : ∀ x ∈ maskedProbs ((sortProbs probs).map (fun p => p.1)) topP topK,
      0 ≤ x := maskedProbs_nonneg _ _ _ hps_nn
  have hm_pos : 0 < (maskedProbs ((sortProbs probs).map (fun p => p.1)) topP
      topK).foldr max 0 := by
    apply lt_of_lt_of_le (hmk0 ▸ hps0)
    exact le_foldr_max _ _ (getD_mem_of_lt _ 0 (by rw [hmk_len]; exact hlen_pos))
  have htop1 : (topPTopK probs topP topK).1
      = (maskedProbs ((sortProbs probs).map (fun p => p.1)) topP topK).map
          (fun x => x / (maskedProbs ((sortProbs probs).map (fun p => p.1)) topP
            topK).foldr max 0) := rfl
  have hmaskiff : ∀ j, j < probs.length →
      (0 < (topPTopK probs topP topK).1.getD j 0 ↔
        ((((sortProbs probs).map (fun p => p.1)).take j).sum ≤ topP ∧
          (j : Int) < topK ∧
          0 < ((sortProbs probs).map (fun p => p.1)).getD j 0)) := by
    intro j hj
    rw [htop1, map_div_getD _ _ j (by rw [hmk_len]; exact hj)]
    rw [div_pos_iff_of_pos_right hm_pos]
    rw [maskedProbs_getD _ _ _ j (by rw [hps_len]; exact hj)]
    by_cases hcond : topP < (((sortProbs probs).map (fun p => p.1)).take j).sum
        ∨ topK ≤ (j : Int)
    · rw [if_pos hcond]
      constructor
      · intro hcon
        exact absurd hcon (lt_irrefl 0)
      · rintro ⟨hc1, hc2, -⟩
        rcases hcond with hd1 | hd2
        · exact absurd (lt_of_le_of_lt hc1 hd1) (lt_irrefl _)
        · omega
    · rw [if_neg hcond]
      push_neg at hcond
      exact ⟨fun hx => ⟨hcond.1, hcond.2, hx⟩, fun hx => hx.2.2⟩
  refine ⟨sortProbs_perm probs, sortProbs_sorted probs, hmaskiff, ?_⟩
  have hw_nn : ∀ x ∈ (topPTopK probs topP topK).1, 0 ≤ x := by
    rw [htop1]
    intro x hx
    rcases List.mem_map.mp hx with ⟨y, hy, hx2⟩
    rw [← hx2]
    exact div_nonneg (hmk_nn y hy) (le_of_lt hm_pos)
  have hw_sum : 0 < ((topPTopK probs topP topK).1).sum := by
    rw [htop1, sum_map_div]
    apply div_pos _ hm_pos
    apply lt_of_lt_of_le (hmk0 ▸ hps0)
    exact List.single_le_sum hmk_nn _
      (getD_mem_of_lt _ 0 (by rw [hmk_len]; exact hlen_pos))
  obtain ⟨j, hpick, hjlen, hwj⟩ :=
    weightedPick_pos ((topPTopK probs topP topK).1) u hw_nn hu0 hu1 hw_sum
  have hjlen2 : j < probs.length := by
    rw [htop1, List.length_map, hmk_len] at hjlen
    exact hjlen
  have hsurv := (hmaskiff j hjlen2).mp hwj
  refine ⟨j, (topPTopK probs topP topK).2.getD j 0,
    (topPTopK probs topP topK).1.getD j 0, ?_, hpick, rfl, rfl, hwj,
    hsurv.1, hsurv.2.1⟩
  unfold sampleOne
  rw [hpick]

theorem c9_witness :
    c9out.decodeTokenLogprobs = c9req.decodeTokenLogprobs.take
        (lcpLen c9req.outputIds
          ((jfAllIds (fun _ => [10, 20, 30]) (fun _ => "") c9req "D").drop
            c9req.originInputIdsUnpadded.length)) ∧
    c9out.decodeTopLogprobs = c9req.decodeTopLogprobs.take
        (lcpLen c9req.outputIds
          ((jfAllIds (fun _ => [10, 20, 30]) (fun _ => "") c9req "D").drop
            c9req.originInputIdsUnpadded.length)) ∧
    c9out.logprobStartLen = c9req.originInputIdsUnpadded.length +
        lcpLen c9req.outputIds
          ((jfAllIds (fun _ => [10, 20, 30]) (fun _ => "") c9req "D").drop
            c9req.originInputIdsUnpadded.length) ∧
    c9out.lastUpdateDecodeTokens =
        ((jfAllIds (fun _ => [10, 20, 30]) (fun _ => "") c9req "D").drop
          c9req.originInputIdsUnpadded.length).length
          - lcpLen c9req.outputIds
              ((jfAllIds (fun _ => [10, 20, 30]) (fun _ => "") c9req "D").drop
                c9req.originInputIdsUnpadded.length) :=
  c9_jump_forward_logprob_lcp (fun _ => [10, 20, 30]) (fun _ => "") c9req "D" 5
    c9out rfl (by decide)

theorem c6_witness :
    ∃ j tok wgt,
      sampleOne [(2 : ℚ), 1, 1] 2 2 0 = some (tok, wgt) ∧
      weightedPick (topPTopK [(2 : ℚ), 1, 1] 2 2).1 0 = some j ∧
      tok = (topPTopK [(2 : ℚ), 1, 1] 2 2).2.getD j 0 ∧
      wgt = (topPTopK [(2 : ℚ), 1, 1] 2 2).1.getD j 0 ∧ 0 < wgt ∧
      (((sortProbs [(2 : ℚ), 1, 1]).map (fun p => p.1)).take j).sum ≤ 2 ∧
      (j : Int) < 2 :=
  (c6_sample_top_p_top_k [(2 : ℚ), 1, 1] 2 2 0 (by decide)
    ⟨2, by decide, by decide⟩ (by decide) (by decide) (by decide)
    (by decide)).2.2.2

end InferBatch
